import Mathlib

/-!
Shallow embedding of the event-sourcing core of `es-poc`.

The TypeScript source is translated definition by definition:
* `framework/Aggregate.ts` → the generic `Aggregate` container and its
  operations `makeFactory`, `makeEventApplier`, `markChangesAsCommitted`;
* `framework/EventStore.ts` (in-memory implementation) → pure state-passing
  functions over the stored-event list `loadEvents`, `loadEventsForAggregate`,
  `saveEvents`, `commit`;
* `domain/User.ts` → `UserState`, `UserEvent`, `applyEventToState`,
  `loadFromHistory`, `create`, `updateFirstName`, `updatePhoneNumber`;
* `domain/UserRepository.ts` → `getById`, `save`;
* `projections/UserDirectory.ts` → the projection fold `fromEvents` with its
  record of per-user projections.

The mutable closure variable `storedEvents` of the in-memory store becomes an
explicit `List E` threaded through the operations; effect's
`ReadonlyRecord` (a plain JS object, which preserves key insertion order and
keeps an updated key at its original position) becomes an association list
with `recordGet`/`recordSet` realising those object semantics.
-/

set_option autoImplicit false
set_option linter.dupNamespace false

namespace EsPoc

/-! ### framework/Aggregate.ts -/

/-- `Aggregate<State, E>`: an aggregate root that maintains state through
events (`framework/Aggregate.ts`). `version: number` only ever starts at 0 and
is incremented, so it is embedded as `Nat`. -/
structure Aggregate (State E : Type) where
  aggregateId : String
  state : State
  committedChanges : List E
  uncommittedChanges : List E
  version : Nat
  deriving DecidableEq, Repr

/-- `makeFactory(state)(aggregateId)`: aggregate with the given initial state,
both change lists empty and version 0. -/
def makeFactory {State E : Type} (state : State) (aggregateId : String) :
    Aggregate State E :=
  { aggregateId := aggregateId
    state := state
    committedChanges := []
    uncommittedChanges := []
    version := 0 }

/-- `markChangesAsCommitted(aggregate)`: appends all uncommitted changes to
the committed list and clears the uncommitted list. -/
def markChangesAsCommitted {State E : Type} (aggregate : Aggregate State E) :
    Aggregate State E :=
  { aggregate with
    committedChanges := aggregate.committedChanges ++ aggregate.uncommittedChanges
    uncommittedChanges := [] }

/-- `makeEventApplier(applyEventToState)` applied to `(aggregate, event, isNew)`:
updates the state through the caller-supplied reducer, appends the event to the
uncommitted list when `isNew` and to the committed list otherwise, and
increments the version. The TS `Function.dual` wrapper only changes the calling
convention, not the computation, so the fully-applied form is embedded. -/
def makeEventApplier {State E : Type} (applyEventToState : State → E → State)
    (aggregate : Aggregate State E) (event : E) (isNew : Bool) :
    Aggregate State E :=
  { aggregate with
    state := applyEventToState aggregate.state event
    committedChanges :=
      if isNew then aggregate.committedChanges
      else aggregate.committedChanges ++ [event]
    uncommittedChanges :=
      if isNew then aggregate.uncommittedChanges ++ [event]
      else aggregate.uncommittedChanges
    version := aggregate.version + 1 }

/-- An interaction with the aggregate engine: one `applyEvent` call (with its
`isNew` flag) or one `markChangesAsCommitted` call. -/
inductive AggOp (E : Type) where
  | applyEvent (event : E) (isNew : Bool)
  | markCommitted
  deriving DecidableEq, Repr

/-- Runs a sequence of aggregate-engine calls against an aggregate. -/
def runOps {State E : Type} (applyEventToState : State → E → State) :
    Aggregate State E → List (AggOp E) → Aggregate State E
  | a, [] => a
  | a, AggOp.applyEvent e isNew :: rest =>
      runOps applyEventToState (makeEventApplier applyEventToState a e isNew) rest
  | a, AggOp.markCommitted :: rest =>
      runOps applyEventToState (markChangesAsCommitted a) rest

/-! ### framework/EventStore.ts (in-memory implementation)

The store's closure state `storedEvents : ReadonlyArray<E>` is passed
explicitly. Events are kept generic: `idOf`/`tagOf` extract the
`aggregateId` and `_tag` fields of the TS event object. -/

/-- `hasMatchingTag(tags)(e)`: whether the event's tag is contained in `tags`. -/
def hasMatchingTag {E : Type} (tagOf : E → String) (tags : List String)
    (e : E) : Bool :=
  tags.contains (tagOf e)

/-- `loadEvents(tags)`: all stored events whose tag is in `tags`, in insertion
order. -/
def loadEvents {E : Type} (tagOf : E → String) (storedEvents : List E)
    (tags : List String) : List E :=
  storedEvents.filter (hasMatchingTag tagOf tags)

/-- `loadEventsForAggregate(aggregateId, tags)`: stored events filtered first
by owning aggregate, then by tag, in insertion order. -/
def loadEventsForAggregate {E : Type} (idOf tagOf : E → String)
    (storedEvents : List E) (aggregateId : String) (tags : List String) :
    List E :=
  (storedEvents.filter (fun e => idOf e == aggregateId)).filter
    (hasMatchingTag tagOf tags)

/-- `saveEvents(aggregateId, events)`: appends the events to the single stored
log; the aggregate-id argument is unused by this implementation (the source
names it `_aggregateId`). -/
def saveEvents {E : Type} (storedEvents : List E) (_aggregateId : String)
    (events : List E) : List E :=
  storedEvents ++ events

/-- `commit(aggregate, store)`: saves the aggregate's uncommitted changes into
the store, then marks them committed. Returns the updated aggregate together
with the updated store state. -/
def commit {State E : Type} (aggregate : Aggregate State E)
    (storedEvents : List E) : Aggregate State E × List E :=
  (markChangesAsCommitted aggregate,
    saveEvents storedEvents aggregate.aggregateId aggregate.uncommittedChanges)

/-! ### domain/User.ts -/

namespace User

/-- `UserState`: current state of a user; `phoneNumber` is an
`Option.Option<string>`. -/
structure UserState where
  firstName : String
  lastName : String
  displayName : String
  phoneNumber : Option String
  deriving DecidableEq, Repr

/-- `UserEvent = UserCreated | FirstNameUpdated | PhoneNumberUpdated`, each an
`Event<Tag, Payload>` carrying the owning aggregate id; the optional
`phoneNumber` field of the `UserCreated` payload is an explicit `Option`. -/
inductive UserEvent where
  | userCreated (aggregateId firstName lastName : String)
      (phoneNumber : Option String)
  | firstNameUpdated (aggregateId firstName : String)
  | phoneNumberUpdated (aggregateId phoneNumber : String)
  deriving DecidableEq, Repr

/-- The `_tag` discriminator of a user event. -/
def UserEvent.tag : UserEvent → String
  | .userCreated .. => "UserCreated"
  | .firstNameUpdated .. => "FirstNameUpdated"
  | .phoneNumberUpdated .. => "PhoneNumberUpdated"

/-- The `aggregateId` field of a user event. -/
def UserEvent.aggregateId : UserEvent → String
  | .userCreated id .. => id
  | .firstNameUpdated id .. => id
  | .phoneNumberUpdated id .. => id

/-- The default state used by the `empty` factory. -/
def initialUserState : UserState :=
  { firstName := ""
    lastName := ""
    displayName := ""
    phoneNumber := none }

/-- `UserAggregate = Aggregate<UserState, UserEvent>`. -/
abbrev UserAggregate := Aggregate UserState UserEvent

/-- `empty = Aggregate.makeFactory({firstName: "", lastName: "",
displayName: "", phoneNumber: Option.none()})`. -/
def empty (aggregateId : String) : UserAggregate :=
  makeFactory initialUserState aggregateId

/-- `applyEventToState(state, event)`: the user-domain reducer, matching on the
event tag (`Match.valueTags`); `Option.fromNullable` on the already-optional
payload field is the identity here. -/
def applyEventToState (state : UserState) (event : UserEvent) : UserState :=
  match event with
  | .userCreated _ firstName lastName phoneNumber =>
      { firstName := firstName
        lastName := lastName
        displayName := firstName ++ " " ++ lastName
        phoneNumber := phoneNumber }
  | .firstNameUpdated _ firstName =>
      { state with
        firstName := firstName
        displayName := firstName ++ " " ++ state.lastName }
  | .phoneNumberUpdated _ phoneNumber =>
      { state with phoneNumber := some phoneNumber }

/-- `applyEvent = Aggregate.makeEventApplier(applyEventToState)`. -/
def applyEvent (aggregate : UserAggregate) (event : UserEvent)
    (isNew : Bool) : UserAggregate :=
  makeEventApplier applyEventToState aggregate event isNew

/-- `loadFromHistory(aggregateId, events)`: replays the events over the empty
aggregate with `isNew = false` (`Array.reduce` is a left fold). -/
def loadFromHistory (aggregateId : String) (events : List UserEvent) :
    UserAggregate :=
  events.foldl (fun agg event => applyEvent agg event false) (empty aggregateId)

/-- `create(aggregateId, firstName, lastName, phoneNumber?)`: the payload
includes the phone number only when the TS ternary `phoneNumber ? ... : ...`
takes the truthy branch, i.e. when the optional argument is a non-empty
string (the empty string is falsy in JS). -/
def create (aggregateId firstName lastName : String)
    (phoneNumber : Option String) : UserAggregate :=
  let payloadPhone : Option String :=
    match phoneNumber with
    | some p => if p = "" then none else some p
    | none => none
  applyEvent (empty aggregateId)
    (UserEvent.userCreated aggregateId firstName lastName payloadPhone) true

/-- `updateFirstName(aggregate, firstName)`: applies a new
`FirstNameUpdated` event. -/
def updateFirstName (aggregate : UserAggregate) (firstName : String) :
    UserAggregate :=
  applyEvent aggregate
    (UserEvent.firstNameUpdated aggregate.aggregateId firstName) true

/-- `updatePhoneNumber(aggregate, phoneNumber)`: applies a new
`PhoneNumberUpdated` event. -/
def updatePhoneNumber (aggregate : UserAggregate) (phoneNumber : String) :
    UserAggregate :=
  applyEvent aggregate
    (UserEvent.phoneNumberUpdated aggregate.aggregateId phoneNumber) true

end User

/-! ### domain/UserRepository.ts -/

namespace UserRepository

/-- `getById(id)`: loads the entity's events with the tag list
`["UserCreated", "FirstNameUpdated"]` exactly as written in the source, then
replays them. -/
def getById (storedEvents : List User.UserEvent) (id : String) :
    User.UserAggregate :=
  User.loadFromHistory id
    (loadEventsForAggregate User.UserEvent.aggregateId User.UserEvent.tag
      storedEvents id ["UserCreated", "FirstNameUpdated"])

/-- `save(aggregate) = EventStore.commit(aggregate, store)`; the updated store
state is returned alongside the aggregate. -/
def save (storedEvents : List User.UserEvent) (aggregate : User.UserAggregate) :
    User.UserAggregate × List User.UserEvent :=
  commit aggregate storedEvents

end UserRepository

/-! ### projections/UserDirectory.ts -/

namespace UserDirectory

/-- Internal projection state for one user. -/
structure UserProjection where
  firstName : String
  lastName : String
  phoneNumber : Option String
  deriving DecidableEq, Repr

/-- `ProjectionRecord = ReadonlyRecord<AggregateId, UserProjection>`: a plain
JS object, embedded as an association list in key-insertion order. -/
abbrev ProjectionRecord := List (String × UserProjection)

/-- `Record.get(users, key)`. -/
def recordGet (users : ProjectionRecord) (key : String) :
    Option UserProjection :=
  (users.find? (fun p => p.1 == key)).map Prod.snd

/-- `Record.set(users, key, value)`: a present key keeps its position with the
new value; an absent key is appended (JS object key order). -/
def recordSet (users : ProjectionRecord) (key : String)
    (value : UserProjection) : ProjectionRecord :=
  if users.any (fun p => p.1 == key) then
    users.map (fun p => if p.1 == key then (key, value) else p)
  else
    users ++ [(key, value)]

/-- `applyEvent(users, event)`: `UserCreated` installs a projection for its
aggregate id; the two update events modify an existing projection and leave
the record unchanged when the id is absent (`Option.getOrElse(() => users)`). -/
def applyEvent (users : ProjectionRecord) (event : User.UserEvent) :
    ProjectionRecord :=
  match event with
  | .userCreated aggregateId firstName lastName phoneNumber =>
      recordSet users aggregateId
        { firstName := firstName
          lastName := lastName
          phoneNumber := phoneNumber }
  | .firstNameUpdated aggregateId firstName =>
      match recordGet users aggregateId with
      | some existing =>
          recordSet users aggregateId { existing with firstName := firstName }
      | none => users
  | .phoneNumberUpdated aggregateId phoneNumber =>
      match recordGet users aggregateId with
      | some existing =>
          recordSet users aggregateId
            { existing with phoneNumber := some phoneNumber }
      | none => users

/-- A directory entry for a user with a phone number. -/
structure DirectoryEntry where
  id : String
  displayName : String
  phoneNumber : String
  deriving DecidableEq, Repr

/-- The externally visible directory shape. -/
structure UserDirectory where
  totalUsers : Nat
  usersWithPhone : Nat
  entries : List DirectoryEntry
  deriving DecidableEq, Repr

/-- `toDirectory(projections)`: `totalUsers` counts all entries of the record;
`entries` keeps (`Array.filterMap`) only users with a phone number;
`usersWithPhone` is the length of `entries`. -/
def toDirectory (projections : ProjectionRecord) : UserDirectory :=
  let allEntries := projections
  let totalUsers := allEntries.length
  let entries := allEntries.filterMap (fun p =>
    p.2.phoneNumber.map (fun phoneNumber =>
      { id := p.1
        displayName := p.2.firstName ++ " " ++ p.2.lastName
        phoneNumber := phoneNumber }))
  { totalUsers := totalUsers
    usersWithPhone := entries.length
    entries := entries }

/-- `fromEvents(events)`: left fold of `applyEvent` from the empty record,
then `toDirectory`. -/
def fromEvents (events : List User.UserEvent) : UserDirectory :=
  toDirectory (events.foldl applyEvent [])

/-- Whether the event is a `UserCreated` event for the given id. -/
def isUserCreatedFor (event : User.UserEvent) (id : String) : Bool :=
  match event with
  | .userCreated i .. => i == id
  | _ => false

/-- Whether the stream contains a `UserCreated` event for the given id. -/
def hasUserCreatedFor (events : List User.UserEvent) (id : String) : Bool :=
  events.any (fun e => isUserCreatedFor e id)

end UserDirectory

/-! ## Helper lemmas -/

/-- Every aggregate-engine call preserves the invariant
`version = |committedChanges| + |uncommittedChanges|`. -/
theorem runOps_version_eq {State E : Type} (f : State → E → State)
    (ops : List (AggOp E)) (a : Aggregate State E)
    (h : a.version = a.committedChanges.length + a.uncommittedChanges.length) :
    (runOps f a ops).version
      = (runOps f a ops).committedChanges.length
        + (runOps f a ops).uncommittedChanges.length := by
  induction ops generalizing a with
  | nil => simpa [runOps] using h
  | cons op rest ih =>
    cases op with
    | applyEvent e isNew =>
      show (runOps f (makeEventApplier f a e isNew) rest).version = _
      refine ih _ ?_
      cases isNew <;> simp [makeEventApplier] <;> omega
    | markCommitted =>
      show (runOps f (markChangesAsCommitted a) rest).version = _
      refine ih _ ?_
      simp [markChangesAsCommitted]
      omega

/-- Replaying events over an aggregate folds the state reducer over the
aggregate's state. -/
theorem foldl_applyEvent_state (events : List User.UserEvent)
    (a : User.UserAggregate) :
    (events.foldl (fun agg event => User.applyEvent agg event false) a).state
      = events.foldl User.applyEventToState a.state := by
  induction events generalizing a with
  | nil => rfl
  | cons e rest ih =>
    simpa [User.applyEvent, makeEventApplier] using
      ih (User.applyEvent a e false)

/-- Rewriting a present key in place (the `map` branch of `recordSet`) leaves
the key set of the record unchanged. -/
theorem recordSet_map_any_key (users : UserDirectory.ProjectionRecord)
    (key k : String) (v : UserDirectory.UserProjection) :
    ((users.map (fun p => if p.1 == key then (key, v) else p)).any
        (fun p => p.1 == k))
      = users.any (fun p => p.1 == k) := by
  induction users with
  | nil => rfl
  | cons hd tl ih =>
    simp only [List.map_cons, List.any_cons, ih]
    cases h : (hd.1 == key) with
    | true =>
      have hk : hd.1 = key := eq_of_beq h
      rw [if_pos rfl, hk]
    | false =>
      rw [if_neg Bool.false_ne_true]

/-- `recordSet` with a key already present rewrites in place, preserving the
key set. -/
theorem recordSet_any_key_present (users : UserDirectory.ProjectionRecord)
    (key k : String) (v : UserDirectory.UserProjection)
    (h : users.any (fun p => p.1 == key) = true) :
    ((UserDirectory.recordSet users key v).any (fun p => p.1 == k))
      = users.any (fun p => p.1 == k) := by
  unfold UserDirectory.recordSet
  rw [if_pos h]
  exact recordSet_map_any_key users key k v

/-- `recordSet` with an absent key appends it, adding exactly that key. -/
theorem recordSet_any_key_absent (users : UserDirectory.ProjectionRecord)
    (key k : String) (v : UserDirectory.UserProjection)
    (h : users.any (fun p => p.1 == key) = false) :
    ((UserDirectory.recordSet users key v).any (fun p => p.1 == k))
      = (users.any (fun p => p.1 == k) || (key == k)) := by
  unfold UserDirectory.recordSet
  rw [if_neg (by simp [h]), List.any_append]
  simp only [List.any_cons, List.any_nil, Bool.or_false]

/-- A successful `recordGet` means the key is present in the record. -/
theorem recordGet_some_any (users : UserDirectory.ProjectionRecord)
    (key : String) (ex : UserDirectory.UserProjection)
    (h : UserDirectory.recordGet users key = some ex) :
    users.any (fun p => p.1 == key) = true := by
  unfold UserDirectory.recordGet at h
  cases hf : users.find? (fun p => p.1 == key) with
  | none => rw [hf] at h; cases h
  | some x =>
    have hp := List.find?_some hf
    have hm : x ∈ users := List.mem_of_find?_eq_some hf
    exact List.any_eq_true.mpr ⟨x, hm, hp⟩

/-- An absent key makes `recordGet` return `none`. -/
theorem recordGet_eq_none (users : UserDirectory.ProjectionRecord)
    (key : String) (h : users.any (fun p => p.1 == key) = false) :
    UserDirectory.recordGet users key = none := by
  have hall := List.any_eq_false.mp h
  simp [UserDirectory.recordGet, List.find?_eq_none.mpr hall]

/-- One projection step can add at most the key of a `UserCreated` event:
the keys present after `applyEvent` are the previous keys plus the event's
aggregate id exactly when the event is a `UserCreated`. -/
theorem applyEvent_any_key (users : UserDirectory.ProjectionRecord)
    (event : User.UserEvent) (k : String) :
    ((UserDirectory.applyEvent users event).any (fun p => p.1 == k))
      = (users.any (fun p => p.1 == k)
          || UserDirectory.isUserCreatedFor event k) := by
  cases event with
  | userCreated i f l ph =>
    show ((UserDirectory.recordSet users i
        { firstName := f, lastName := l, phoneNumber := ph }).any
          (fun p => p.1 == k))
      = (users.any (fun p => p.1 == k) || (i == k))
    cases h : users.any (fun p => p.1 == i) with
    | true =>
      rw [recordSet_any_key_present users i k _ h]
      cases hik : (i == k) with
      | true =>
        have hk : i = k := eq_of_beq hik
        rw [Bool.or_true]
        rw [hk] at h
        exact h
      | false => rw [Bool.or_false]
    | false =>
      exact recordSet_any_key_absent users i k _ h
  | firstNameUpdated i f =>
    cases hg : UserDirectory.recordGet users i with
    | none =>
      simp [UserDirectory.applyEvent, hg, UserDirectory.isUserCreatedFor]
    | some ex =>
      have hany := recordGet_some_any users i ex hg
      simp only [UserDirectory.applyEvent, hg,
        UserDirectory.isUserCreatedFor, Bool.or_false]
      exact recordSet_any_key_present users i k _ hany
  | phoneNumberUpdated i p =>
    cases hg : UserDirectory.recordGet users i with
    | none =>
      simp [UserDirectory.applyEvent, hg, UserDirectory.isUserCreatedFor]
    | some ex =>
      have hany := recordGet_some_any users i ex hg
      simp only [UserDirectory.applyEvent, hg,
        UserDirectory.isUserCreatedFor, Bool.or_false]
      exact recordSet_any_key_present users i k _ hany

/-- The keys present after folding a stream are the starting keys plus the
aggregate ids of the stream's `UserCreated` events. -/
theorem foldl_applyEvent_any_key (events : List User.UserEvent)
    (r : UserDirectory.ProjectionRecord) (k : String) :
    ((events.foldl UserDirectory.applyEvent r).any (fun p => p.1 == k))
      = (r.any (fun p => p.1 == k)
          || UserDirectory.hasUserCreatedFor events k) := by
  induction events generalizing r with
  | nil => simp [UserDirectory.hasUserCreatedFor]
  | cons e rest ih =>
    simp only [List.foldl_cons, ih, applyEvent_any_key,
      UserDirectory.hasUserCreatedFor, List.any_cons]
    rw [Bool.or_assoc]

/-! ## Claims -/

/-- C1: every aggregate reachable from the factory by any sequence of
`applyEvent` (either `isNew` value) and `markChangesAsCommitted` calls has
`version = |committedChanges| + |uncommittedChanges|`; a fresh aggregate has
version 0 and both change lists empty; and every `applyEvent` call increments
the version by exactly 1 regardless of the `isNew` flag. -/
theorem c1_version_invariant {State E : Type}
    (applyEventToState : State → E → State) (s : State) (id : String)
    (ops : List (AggOp E)) :
    ((runOps applyEventToState (makeFactory s id) ops).version
        = (runOps applyEventToState (makeFactory s id) ops).committedChanges.length
          + (runOps applyEventToState (makeFactory s id) ops).uncommittedChanges.length)
      ∧ (@makeFactory State E s id).version = 0
      ∧ (@makeFactory State E s id).committedChanges = []
      ∧ (@makeFactory State E s id).uncommittedChanges = []
      ∧ ∀ (a : Aggregate State E) (e : E) (isNew : Bool),
          (makeEventApplier applyEventToState a e isNew).version = a.version + 1 :=
  ⟨runOps_version_eq _ _ _ (by simp [makeFactory]), rfl, rfl, rfl,
    fun _ _ _ => rfl⟩

/-- C2: `applyEvent(a, e, isNew)` computes its state through the
caller-supplied reducer; when `isNew` it appends `e` to the uncommitted list
leaving the committed list unchanged, otherwise it appends `e` to the
committed list leaving the uncommitted list unchanged; the aggregate identity
is preserved (the input value itself is untouched — the embedding is pure, as
is the TS spread construction). -/
theorem c2_applyEvent_fields {State E : Type}
    (applyEventToState : State → E → State) (a : Aggregate State E) (e : E)
    (isNew : Bool) :
    (makeEventApplier applyEventToState a e isNew).state
        = applyEventToState a.state e
      ∧ (makeEventApplier applyEventToState a e isNew).uncommittedChanges
        = (if isNew then a.uncommittedChanges ++ [e] else a.uncommittedChanges)
      ∧ (makeEventApplier applyEventToState a e isNew).committedChanges
        = (if isNew then a.committedChanges else a.committedChanges ++ [e])
      ∧ (makeEventApplier applyEventToState a e isNew).aggregateId
        = a.aggregateId :=
  ⟨rfl, rfl, rfl, rfl⟩

/-- C3: `markChangesAsCommitted` moves the whole uncommitted list onto the end
of the committed list, in order, clears the uncommitted list, and is
idempotent. -/
theorem c3_markChangesAsCommitted_spec {State E : Type}
    (a : Aggregate State E) :
    (markChangesAsCommitted a).committedChanges
        = a.committedChanges ++ a.uncommittedChanges
      ∧ (markChangesAsCommitted a).uncommittedChanges = []
      ∧ markChangesAsCommitted (markChangesAsCommitted a)
        = markChangesAsCommitted a := by
  refine ⟨rfl, rfl, ?_⟩
  simp [markChangesAsCommitted]

/-- C5: the state of `loadFromHistory(id, S)` is the left fold of the
user-domain reducer over `S` from the empty initial state; the result is a
pure function of the event sequence (in particular it does not depend on the
id argument), so replay is deterministic. -/
theorem c5_loadFromHistory_foldl (id : String)
    (events : List User.UserEvent) :
    ((User.loadFromHistory id events).state
        = events.foldl User.applyEventToState User.initialUserState)
      ∧ ∀ (idB : String),
          (User.loadFromHistory id events).state
            = (User.loadFromHistory idB events).state := by
  have key : ∀ (i : String),
      (User.loadFromHistory i events).state
        = events.foldl User.applyEventToState User.initialUserState := by
    intro i
    simpa [User.loadFromHistory] using
      foldl_applyEvent_state events (User.empty i)
  exact ⟨key id, fun idB => (key id).trans (key idB).symm⟩

/-- C4 names a real slip in the code: `getById` hard-codes the tag list
`["UserCreated", "FirstNameUpdated"]` and therefore drops every
`PhoneNumberUpdated` event on reload, although the domain's `EventTags`
lists all three tags and the repository's purpose is round-trip
reconstruction. Concretely, for the aggregate obtained by
`create("user-001","Robert","Smith")` followed by
`updatePhoneNumber("555-1234")`, saving and re-loading yields a state whose
phone number is absent and a history of only one committed event, while the
in-memory state before `save` had phone number `"555-1234"` and two
uncommitted events. -/
theorem c4_roundtrip_bug :
    ((UserRepository.getById
        (UserRepository.save []
          (User.updatePhoneNumber
            (User.create "user-001" "Robert" "Smith" none) "555-1234")).2
        "user-001").state
      ≠ (User.updatePhoneNumber
          (User.create "user-001" "Robert" "Smith" none) "555-1234").state)
    ∧ (User.updatePhoneNumber
        (User.create "user-001" "Robert" "Smith" none)
        "555-1234").state.phoneNumber = some "555-1234"
    ∧ (UserRepository.getById
        (UserRepository.save []
          (User.updatePhoneNumber
            (User.create "user-001" "Robert" "Smith" none) "555-1234")).2
        "user-001").state.phoneNumber = none
    ∧ (UserRepository.getById
        (UserRepository.save []
          (User.updatePhoneNumber
            (User.create "user-001" "Robert" "Smith" none) "555-1234")).2
        "user-001").committedChanges.length = 1
    ∧ (User.updatePhoneNumber
        (User.create "user-001" "Robert" "Smith" none)
        "555-1234").uncommittedChanges.length = 2 := by
  decide

/-- C6 as stated (for *every* event sequence) is false on this code:
`saveEvents` appends to the single global log and the events loadable for an
entity are recovered by filtering on the events' own `aggregateId` field, so
saving under `"user-001"` an event whose own aggregate id is `"user-002"`
leaves nothing loadable for `"user-001"`. -/
theorem c6_counterexample :
    loadEventsForAggregate User.UserEvent.aggregateId User.UserEvent.tag
        (saveEvents ([] : List User.UserEvent) "user-001"
          [User.UserEvent.userCreated "user-002" "Alice" "Smith" none])
        "user-001" ["UserCreated"]
      ≠ ([] : List User.UserEvent)
          ++ [User.UserEvent.userCreated "user-002" "Alice" "Smith" none] := by
  decide

/-- C6 amended: `saveEvents` appends the events, in order, to the stored log;
and provided every saved event carries the target entity's id, the events
loadable for that entity (under any tag filter that admits every saved
event's tag) equal the previously loadable sequence followed by the saved
events — nothing is reordered, deduplicated or dropped. -/
theorem c6_saveEvents_appends {E : Type} (idOf tagOf : E → String)
    (storedEvents : List E) (aggregateId : String) (events : List E)
    (tags : List String)
    (hid : ∀ e ∈ events, idOf e = aggregateId)
    (htag : ∀ e ∈ events, tagOf e ∈ tags) :
    saveEvents storedEvents aggregateId events = storedEvents ++ events
      ∧ loadEventsForAggregate idOf tagOf
          (saveEvents storedEvents aggregateId events) aggregateId tags
        = loadEventsForAggregate idOf tagOf storedEvents aggregateId tags
            ++ events := by
  refine ⟨rfl, ?_⟩
  have h1 : events.filter (fun e => idOf e == aggregateId) = events :=
    List.filter_eq_self.mpr (fun e he => by simpa using hid e he)
  have h2 : events.filter (hasMatchingTag tagOf tags) = events :=
    List.filter_eq_self.mpr (fun e he => by
      simpa [hasMatchingTag, List.contains, List.elem_iff] using htag e he)
  unfold loadEventsForAggregate saveEvents
  rw [List.filter_append, h1, List.filter_append, h2]

/-- Witness for the amended C6 at a concrete store, entity and event list. -/
theorem c6_saveEvents_appends_witness :
    (∀ e ∈ [User.UserEvent.userCreated "user-001" "Robert" "Smith" none],
        User.UserEvent.aggregateId e = "user-001")
      ∧ (∀ e ∈ [User.UserEvent.userCreated "user-001" "Robert" "Smith" none],
          User.UserEvent.tag e ∈ ["UserCreated"])
      ∧ (saveEvents ([] : List User.UserEvent) "user-001"
            [User.UserEvent.userCreated "user-001" "Robert" "Smith" none]
          = ([] : List User.UserEvent)
              ++ [User.UserEvent.userCreated "user-001" "Robert" "Smith" none]
        ∧ loadEventsForAggregate User.UserEvent.aggregateId User.UserEvent.tag
            (saveEvents ([] : List User.UserEvent) "user-001"
              [User.UserEvent.userCreated "user-001" "Robert" "Smith" none])
            "user-001" ["UserCreated"]
          = loadEventsForAggregate User.UserEvent.aggregateId User.UserEvent.tag
              ([] : List User.UserEvent) "user-001" ["UserCreated"]
              ++ [User.UserEvent.userCreated "user-001" "Robert" "Smith" none]) :=
  ⟨by decide, by decide,
    c6_saveEvents_appends User.UserEvent.aggregateId User.UserEvent.tag []
      "user-001" [User.UserEvent.userCreated "user-001" "Robert" "Smith" none]
      ["UserCreated"] (by decide) (by decide)⟩

/-- C7: `loadEventsForAggregate(id, tags)` returns exactly the stored events
owned by `id` whose tag lies in `tags`, in original insertion order (it is the
order-preserving filter of the stored log by that conjunction); consequently
every returned event is owned by `id` with a tag in `tags`, and a query for
`["UserCreated"]` never returns an event tagged `"FirstNameUpdated"`. -/
theorem c7_loadEventsForAggregate_filter {E : Type} (idOf tagOf : E → String)
    (storedEvents : List E) (id : String) (tags : List String) :
    loadEventsForAggregate idOf tagOf storedEvents id tags
        = storedEvents.filter
            (fun e => idOf e == id && tags.contains (tagOf e))
      ∧ (∀ e ∈ loadEventsForAggregate idOf tagOf storedEvents id tags,
          idOf e = id ∧ tagOf e ∈ tags)
      ∧ ∀ e ∈ loadEventsForAggregate idOf tagOf storedEvents id
            ["UserCreated"],
          tagOf e ≠ "FirstNameUpdated" := by
  have hfilter : ∀ (ts : List String),
      loadEventsForAggregate idOf tagOf storedEvents id ts
        = storedEvents.filter
            (fun e => idOf e == id && ts.contains (tagOf e)) := by
    intro ts
    unfold loadEventsForAggregate hasMatchingTag
    rw [List.filter_filter]
    apply List.filter_congr
    intro e _
    exact Bool.and_comm _ _
  have hmem : ∀ (ts : List String),
      ∀ e ∈ loadEventsForAggregate idOf tagOf storedEvents id ts,
        idOf e = id ∧ tagOf e ∈ ts := by
    intro ts e he
    rw [hfilter ts] at he
    have := List.of_mem_filter he
    simp only [Bool.and_eq_true, beq_iff_eq, List.contains,
      List.elem_iff] at this
    exact this
  refine ⟨hfilter tags, hmem tags, fun e he => ?_⟩
  have h := (hmem ["UserCreated"] e he).2
  simp only [List.mem_singleton] at h
  rw [h]
  decide

/-- Witness for C7 at a concrete store holding both a `UserCreated` and a
`FirstNameUpdated` event for the queried entity. -/
theorem c7_loadEventsForAggregate_filter_witness :
    loadEventsForAggregate User.UserEvent.aggregateId User.UserEvent.tag
        [User.UserEvent.userCreated "user-001" "Robert" "Smith" none,
          User.UserEvent.firstNameUpdated "user-001" "Bob"]
        "user-001" ["UserCreated"]
      = [User.UserEvent.userCreated "user-001" "Robert" "Smith" none,
          User.UserEvent.firstNameUpdated "user-001" "Bob"].filter
          (fun e => User.UserEvent.aggregateId e == "user-001"
            && ["UserCreated"].contains (User.UserEvent.tag e)) := by
  have h := c7_loadEventsForAggregate_filter
    User.UserEvent.aggregateId User.UserEvent.tag
    [User.UserEvent.userCreated "user-001" "Robert" "Smith" none,
      User.UserEvent.firstNameUpdated "user-001" "Bob"]
    "user-001" ["UserCreated"]
  exact h.1

/-- C8: an entity with no stored events is not an error: every tag-filtered
load yields the empty sequence and `getById` returns the fresh aggregate —
empty initial state, version 0, both change lists empty. -/
theorem c8_unknown_entity (storedEvents : List User.UserEvent) (id : String)
    (h : ∀ e ∈ storedEvents, User.UserEvent.aggregateId e ≠ id) :
    (∀ (tags : List String),
        loadEventsForAggregate User.UserEvent.aggregateId User.UserEvent.tag
          storedEvents id tags = [])
      ∧ UserRepository.getById storedEvents id = User.empty id
      ∧ (UserRepository.getById storedEvents id).state = User.initialUserState
      ∧ (UserRepository.getById storedEvents id).version = 0
      ∧ (UserRepository.getById storedEvents id).committedChanges = []
      ∧ (UserRepository.getById storedEvents id).uncommittedChanges = [] := by
  have hnil : storedEvents.filter
      (fun e => User.UserEvent.aggregateId e == id) = [] := by
    apply List.filter_eq_nil_iff.mpr
    intro e he
    simpa using h e he
  have hload : ∀ (tags : List String),
      loadEventsForAggregate User.UserEvent.aggregateId User.UserEvent.tag
        storedEvents id tags = [] := by
    intro tags
    unfold loadEventsForAggregate
    rw [hnil]
    rfl
  have hget : UserRepository.getById storedEvents id = User.empty id := by
    unfold UserRepository.getById
    rw [hload]
    rfl
  exact ⟨hload, hget, by rw [hget]; rfl, by rw [hget]; rfl,
    by rw [hget]; rfl, by rw [hget]; rfl⟩

/-- Witness for C8: a store holding only another entity's event. -/
theorem c8_unknown_entity_witness :
    (∀ e ∈ [User.UserEvent.userCreated "user-002" "Alice" "Smith" none],
        User.UserEvent.aggregateId e ≠ "user-001")
      ∧ UserRepository.getById
          [User.UserEvent.userCreated "user-002" "Alice" "Smith" none]
          "user-001" = User.empty "user-001" :=
  ⟨by decide,
    (c8_unknown_entity
      [User.UserEvent.userCreated "user-002" "Alice" "Smith" none]
      "user-001" (by decide)).2.1⟩

/-- C9: folding the two-event stream (a `UserCreated` without phone for one
entity, a `UserCreated` with phone `"555-5678"` for another) through the
directory projection yields `totalUsers = 2`, `usersWithPhone = 1` and exactly
one entry, whose phone number is `"555-5678"`. -/
theorem c9_projection_scenario :
    (UserDirectory.fromEvents
        [User.UserEvent.userCreated "user-001" "Robert" "Smith" none,
          User.UserEvent.userCreated "user-002" "Alice" "Smith"
            (some "555-5678")]).totalUsers = 2
      ∧ (UserDirectory.fromEvents
          [User.UserEvent.userCreated "user-001" "Robert" "Smith" none,
            User.UserEvent.userCreated "user-002" "Alice" "Smith"
              (some "555-5678")]).usersWithPhone = 1
      ∧ (UserDirectory.fromEvents
          [User.UserEvent.userCreated "user-001" "Robert" "Smith" none,
            User.UserEvent.userCreated "user-002" "Alice" "Smith"
              (some "555-5678")]).entries.map
          UserDirectory.DirectoryEntry.phoneNumber = ["555-5678"] := by
  decide

/-- C10: in the directory projection fold, a `FirstNameUpdated` or
`PhoneNumberUpdated` event (i.e. any non-`UserCreated` event) whose aggregate
id has no preceding `UserCreated` event in the stream is silently ignored:
appending it to the stream leaves the projection result unchanged. -/
theorem c10_orphan_event_ignored (events : List User.UserEvent)
    (e : User.UserEvent)
    (hkind : User.UserEvent.tag e ≠ "UserCreated")
    (horphan : UserDirectory.hasUserCreatedFor events (User.UserEvent.aggregateId e)
      = false) :
    UserDirectory.fromEvents (events ++ [e])
      = UserDirectory.fromEvents events := by
  unfold UserDirectory.fromEvents
  rw [List.foldl_append]
  simp only [List.foldl_cons, List.foldl_nil]
  have hany : ((events.foldl UserDirectory.applyEvent []).any
      (fun p => p.1 == User.UserEvent.aggregateId e)) = false := by
    rw [foldl_applyEvent_any_key]
    simpa using horphan
  have hget := recordGet_eq_none _ _ hany
  cases e with
  | userCreated i f l ph =>
    exact absurd rfl hkind
  | firstNameUpdated i f =>
    simp only [User.UserEvent.aggregateId] at hget
    simp [UserDirectory.applyEvent, hget]
  | phoneNumberUpdated i p =>
    simp only [User.UserEvent.aggregateId] at hget
    simp [UserDirectory.applyEvent, hget]

/-- Witness for C10: a one-event stream creating `"user-001"`, followed by an
orphan `FirstNameUpdated` for `"user-002"`. -/
theorem c10_orphan_event_ignored_witness :
    (User.UserEvent.tag (User.UserEvent.firstNameUpdated "user-002" "Bob")
        ≠ "UserCreated")
      ∧ UserDirectory.hasUserCreatedFor
          [User.UserEvent.userCreated "user-001" "Robert" "Smith" none]
          (User.UserEvent.aggregateId
            (User.UserEvent.firstNameUpdated "user-002" "Bob")) = false
      ∧ UserDirectory.fromEvents
          ([User.UserEvent.userCreated "user-001" "Robert" "Smith" none]
            ++ [User.UserEvent.firstNameUpdated "user-002" "Bob"])
        = UserDirectory.fromEvents
            [User.UserEvent.userCreated "user-001" "Robert" "Smith" none] :=
  ⟨by decide, by decide,
    c10_orphan_event_ignored
      [User.UserEvent.userCreated "user-001" "Robert" "Smith" none]
      (User.UserEvent.firstNameUpdated "user-002" "Bob")
      (by decide) (by decide)⟩

end EsPoc
